import Mathlib

/-!
Verification development for the nanostory repository (story_gen.py,
videogen.py, seedance_provider.py).

The repository's parsing layer (`parse_script_md`, `build_video_prompt`) is
driven by Python `re` patterns.  We embed a small backtracking
regular-expression engine whose match list is ordered by Python's
backtracking priority (leftmost match first, alternation left to right,
greedy quantifiers longest first, lazy quantifiers shortest first), and
express each source pattern as a term of the `RE` type.  All string data is
modelled as `List Char`; Python `\s` is the ASCII whitespace class, `\d` the
ASCII digit class, and `.` is any character other than a newline, matching
the behaviour of the source patterns on the inputs this repository handles.

The engine recurses structurally on a fuel argument so that it reduces in
the kernel; every star iteration consumes at least one character, so a fuel
of `s.length + 1` is always sufficient for an input `s`.
-/

/-- Python `\s` (ASCII part): space, tab, newline, carriage return,
vertical tab, form feed. -/
def isWS (c : Char) : Bool :=
  c = ' ' || c = '\t' || c = '\n' || c = '\r' || c = '\x0b' || c = '\x0c'

/-- Python `\d` (ASCII digits). -/
def isDig (c : Char) : Bool := c.isDigit

/-- Python `.` without DOTALL: any character except newline. -/
def notNL (c : Char) : Bool := c ≠ '\n'

/-- Group captures of one regex match: pairs of group number and captured
characters.  Every pattern in this repository binds each group number at
most once per match. -/
abbrev Caps := List (Nat × List Char)

/-- Regular expressions, as used by the source patterns.  `starG` is a
greedy star, `starL` a lazy (non-greedy) star. -/
inductive RE where
  | eps : RE
  | cls (f : Char → Bool) : RE
  | cat (a b : RE) : RE
  | alt (a b : RE) : RE
  | starG (a : RE) : RE
  | starL (a : RE) : RE
  | group (n : Nat) (a : RE) : RE

/-- Literal character. -/
def RE.lit (c : Char) : RE := RE.cls (fun x => x = c)

/-- Literal string. -/
def RE.str (s : List Char) : RE := s.foldr (fun c r => RE.cat (RE.lit c) r) RE.eps

/-- Greedy plus, `x+`. -/
def RE.plusG (a : RE) : RE := RE.cat a (RE.starG a)

/-- Lazy plus, `x+?`. -/
def RE.plusL (a : RE) : RE := RE.cat a (RE.starL a)

/-- One layer of the matcher.  `deeper` is the matcher used when a star
re-enters its body after consuming at least one character (this is where
the fuel decreases).  The result lists all ways `r` can match a prefix of
`s`, in Python backtracking priority order (the head is the match Python's
engine commits to): alternation tries the left branch first, a greedy star
tries longer iterations first, a lazy star tries shorter first.  Star
iterations that consume no input are not taken; every quantified subpattern
in this development consumes at least one character per iteration, so this
agrees with Python on the patterns we embed. -/
def reMIn (deeper : RE → List Char → List (Caps × List Char)) :
    RE → List Char → List (Caps × List Char)
  | .eps, s => [([], s)]
  | .cls f, s =>
      match s with
      | [] => []
      | c :: t => if f c then [([], t)] else []
  | .cat a b, s =>
      (reMIn deeper a s).flatMap fun p =>
        (reMIn deeper b p.2).map fun q => (p.1 ++ q.1, q.2)
  | .alt a b, s => reMIn deeper a s ++ reMIn deeper b s
  | .starG a, s =>
      ((reMIn deeper a s).flatMap fun p =>
        if p.2.length < s.length then
          (deeper (.starG a) p.2).map fun q => (p.1 ++ q.1, q.2)
        else []) ++ [([], s)]
  | .starL a, s =>
      ([], s) ::
      (reMIn deeper a s).flatMap fun p =>
        if p.2.length < s.length then
          (deeper (.starL a) p.2).map fun q => (p.1 ++ q.1, q.2)
        else []
  | .group n a, s =>
      (reMIn deeper a s).map fun p =>
        (p.1 ++ [(n, s.take (s.length - p.2.length))], p.2)

/-- Fuel-indexed matcher: `n` bounds the number of star re-entries, each of
which consumes at least one character. -/
def reMGo : Nat → RE → List Char → List (Caps × List Char)
  | 0, _, _ => []
  | n + 1, r, s => reMIn (reMGo n) r s

/-- All ways the regex `r` can match a prefix of `s`, in Python backtracking
priority order.  A fuel of `s.length + 1` is sufficient because every star
re-entry strictly decreases the remaining input. -/
def reM (r : RE) (s : List Char) : List (Caps × List Char) :=
  reMGo (s.length + 1) r s

/-- Python `re.search`: the leftmost position at which the pattern matches,
with the highest-priority match there; `none` when the pattern matches
nowhere.  (Fuel-indexed; the scan advances one position per step, so
`s.length + 1` steps always suffice.) -/
def reSearchGo : Nat → RE → List Char → Option Caps
  | 0, _, _ => none
  | n + 1, r, s =>
      match reM r s, s with
      | p :: _, _ => some p.1
      | [], [] => none
      | [], _ :: t => reSearchGo n r t

/-- Python `re.search` (see `reSearchGo`). -/
def reSearch (r : RE) (s : List Char) : Option Caps :=
  reSearchGo (s.length + 1) r s

/-- Python `re.finditer`/`re.findall`: the captures of every non-overlapping
match, scanning left to right and restarting after the end of each match
(advancing one position after an empty match, as Python does). -/
def reFindAllGo : Nat → RE → List Char → List Caps
  | 0, _, _ => []
  | n + 1, r, s =>
      match reM r s, s with
      | p :: _, [] => [p.1]
      | p :: _, c :: t =>
          if p.2.length < (c :: t).length then p.1 :: reFindAllGo n r p.2
          else p.1 :: reFindAllGo n r t
      | [], [] => []
      | [], _ :: t => reFindAllGo n r t

/-- Python `re.findall` (see `reFindAllGo`). -/
def reFindAll (r : RE) (s : List Char) : List Caps :=
  reFindAllGo (s.length + 1) r s

/-- Python `re.sub`: replace every non-overlapping match of `r` in `s` by
`repl`, scanning left to right. -/
def reSubGo : Nat → RE → List Char → List Char → List Char
  | 0, _, _, s => s
  | n + 1, r, repl, s =>
      match reM r s, s with
      | p :: _, [] => repl
      | p :: _, c :: t =>
          if p.2.length < (c :: t).length then repl ++ reSubGo n r repl p.2
          else repl ++ c :: reSubGo n r repl t
      | [], [] => []
      | [], c :: t => c :: reSubGo n r repl t

/-- Python `re.sub` (see `reSubGo`). -/
def reSub (r : RE) (repl : List Char) (s : List Char) : List Char :=
  reSubGo (s.length + 1) r repl s

/-- `group(n)` extraction from a capture list (each group number occurs at
most once per match in the embedded patterns). -/
def getCap (caps : Caps) (n : Nat) : Option (List Char) :=
  (caps.find? (fun p => p.1 = n)).map (fun p => p.2)

example : reFindAll (RE.lit 'a') "xaya".data = [[], []] := by decide
example : reSearch (RE.cat (RE.lit 'a') (RE.group 1 (RE.plusG (RE.cls isDig)))) "za12b".data
    = some [(1, ['1', '2'])] := by decide
example : reSub (RE.str "ab".data) ['-'] "xabyab".data = ['x', '-', 'y', '-'] := by decide
example : reSearch (RE.cat (RE.starG (RE.cls isWS))
      (RE.group 1 (RE.plusL (RE.cls notNL)))) "  ab |x".data
    = some [(1, ['a'])] := by decide

/-! ## Python string primitives used by the source -/

/-- Python `str.strip()` (ASCII whitespace). -/
def pyStrip (s : List Char) : List Char :=
  ((s.dropWhile isWS).reverse.dropWhile isWS).reverse

/-- Python `needle in haystack` substring test. -/
def containsSubstr (needle : List Char) : List Char → Bool
  | [] => needle.isEmpty
  | c :: t => needle.isPrefixOf (c :: t) || containsSubstr needle t

/-- Helper for `splitBefore`: `acc` is the reversed current piece. -/
def splitBeforeAux (m : List Char) (acc : List Char) : List Char → List (List Char)
  | [] => [acc.reverse]
  | c :: rest =>
      if m.isPrefixOf (c :: rest) then acc.reverse :: splitBeforeAux m [c] rest
      else splitBeforeAux m (c :: acc) rest

/-- Python `re.split(r'(?=M)', s)` for a literal marker `M`: cut the string
immediately before every occurrence of the marker (a zero-width lookahead
split, advancing one position after each cut). -/
def splitBefore (m : List Char) (s : List Char) : List (List Char) :=
  splitBeforeAux m [] s

/-- Python `str.replace('s', '')`: drop every occurrence of `'s'`. -/
def pyRemoveS (s : List Char) : List Char := s.filter (fun c => c ≠ 's')

/-- Helper for `pySplitChar`: `acc` is the reversed current piece. -/
def pySplitCharAux (sep : Char) (acc : List Char) : List Char → List (List Char)
  | [] => [acc.reverse]
  | c :: t =>
      if c = sep then acc.reverse :: pySplitCharAux sep [] t
      else pySplitCharAux sep (c :: acc) t

/-- Python `str.split(sep)` for a one-character separator. -/
def pySplitChar (sep : Char) (s : List Char) : List (List Char) :=
  pySplitCharAux sep [] s

/-- Numeric value of a digit string. -/
def digitsToNat (s : List Char) : Nat :=
  s.foldl (fun n c => 10 * n + (c.toNat - '0'.toNat)) 0

/-- Python `int(str)`: optional surrounding whitespace, optional sign, at
least one digit; `none` models the `ValueError`. -/
def pyInt? (s : List Char) : Option Int :=
  match pyStrip s with
  | [] => none
  | c :: ds =>
      if c = '+' then
        if ds ≠ [] ∧ ds.all isDig then some (digitsToNat ds) else none
      else if c = '-' then
        if ds ≠ [] ∧ ds.all isDig then some (-(digitsToNat ds : Int)) else none
      else if (c :: ds).all isDig then some (digitsToNat (c :: ds)) else none

/-! ## Data model (videogen.py) -/

/-- `Scene` dataclass of videogen.py.  Durations are Python ints, which may
be negative (`end - start` is not clamped). -/
structure Scene where
  time_range : String
  visual_description : String
  dialogue : String
  audio : String
  duration : Int
deriving DecidableEq, Repr

/-- `Script` dataclass of videogen.py.  The `characters` dict is modelled as
an insertion-ordered association list with Python-dict assignment
semantics (`dictInsert`). -/
structure Script where
  title : String
  characters : List (String × String)
  scenes : List Scene
deriving DecidableEq, Repr

/-- Python `d[k] = v` on an insertion-ordered dict. -/
def dictInsert (d : List (String × String)) (k v : String) : List (String × String) :=
  if d.any (fun p => p.1 = k) then d.map (fun p => if p.1 = k then (k, v) else p)
  else d ++ [(k, v)]

/-! ## The source regex patterns (videogen.py) -/

/-- The section marker `### 剧本标题`. -/
def markerStr : List Char := "### 剧本标题".data

/-- `[：:]` — full-width or ASCII colon. -/
def colonCls : RE := RE.cls (fun c => c = '：' || c = ':')

/-- `\s*`. -/
def wsStar : RE := RE.starG (RE.cls isWS)

/-- `.` (not newline). -/
def dotRE : RE := RE.cls notNL

/-- `re.search(r'### 剧本标题[：:]\s*(.+)', section)` pattern. -/
def titleRE : RE :=
  RE.cat (RE.str markerStr) (RE.cat colonCls (RE.cat wsStar (RE.group 1 (RE.plusG dotRE))))

/-- `re.findall(r'\*\s*\*\*(角色[AB].*?)\*\*[：:]\s*(.+)', section)` pattern. -/
def charRE : RE :=
  RE.cat (RE.lit '*') (RE.cat wsStar (RE.cat (RE.str "**".data)
    (RE.cat (RE.group 1 (RE.cat (RE.str "角色".data)
        (RE.cat (RE.cls (fun c => c = 'A' || c = 'B')) (RE.starL dotRE))))
      (RE.cat (RE.str "**".data) (RE.cat colonCls (RE.cat wsStar (RE.group 2 (RE.plusG dotRE))))))))

/-- `\d+-\d+s` — the numeric time-range alternative of the table pattern. -/
def rangeRE : RE :=
  RE.cat (RE.plusG (RE.cls isDig))
    (RE.cat (RE.lit '-') (RE.cat (RE.plusG (RE.cls isDig)) (RE.lit 's')))

/-- `\s*(.+?)\s*\|` — one table column with capture group `n`. -/
def colRE (n : Nat) : RE :=
  RE.cat wsStar (RE.cat (RE.group n (RE.plusL dotRE)) (RE.cat wsStar (RE.lit '|')))

/-- The table-row pattern
`r'\|\s*\*\*(\d+-\d+s|结尾)\*\*\s*\|\s*(.+?)\s*\|\s*(.+?)\s*\|\s*(.+?)\s*\|'`. -/
def tableRE : RE :=
  RE.cat (RE.lit '|') (RE.cat wsStar (RE.cat (RE.str "**".data)
    (RE.cat (RE.group 1 (RE.alt rangeRE (RE.str "结尾".data)))
      (RE.cat (RE.str "**".data) (RE.cat wsStar (RE.cat (RE.lit '|')
        (RE.cat (colRE 2) (RE.cat (colRE 3) (colRE 4)))))))))

/-- `r'<br\s*/?>'` — the HTML line-break cleanup pattern. -/
def brRE : RE :=
  RE.cat (RE.str "<br".data)
    (RE.cat wsStar (RE.cat (RE.alt (RE.lit '/') RE.eps) (RE.lit '>')))

/-- `r'\[.*?\]'` — bracketed shot directions removed by `build_video_prompt`. -/
def bracketRE : RE := RE.cat (RE.lit '[') (RE.cat (RE.starL dotRE) (RE.lit ']'))

/-- `r'\*\*.*?\*\*'` — bold markup removed by `build_video_prompt`. -/
def boldRE : RE :=
  RE.cat (RE.str "**".data) (RE.cat (RE.starL dotRE) (RE.str "**".data))

/-! ## parse_script_md (videogen.py lines 29-102) -/

/-- Duration derivation of videogen.py lines 77-85: the sentinel `结尾`
yields 3; otherwise `time_range.replace('s','').split('-')` must unpack
into exactly two values that `int` accepts, and the duration is
`end - start`; any failure in that `try` block falls back to 5. -/
def sceneDuration (tr : List Char) : Int :=
  if tr = "结尾".data then 3
  else
    match pySplitChar '-' (pyRemoveS tr) with
    | [a, b] =>
        match pyInt? a, pyInt? b with
        | some x, some y => y - x
        | _, _ => 5
    | _ => 5

/-- `.strip()` followed by `re.sub(r'<br\s*/?>', ' ', ...)`, as applied to
the visual/dialogue/audio cells (videogen.py lines 68-75). -/
def cleanCell (s : List Char) : List Char := reSub brRE [' '] (pyStrip s)

/-- Build one `Scene` from the captures of a table-row match
(videogen.py lines 66-93). -/
def mkScene (caps : Caps) : Scene :=
  let tr := (getCap caps 1).getD []
  { time_range := String.mk tr
    visual_description := String.mk (cleanCell ((getCap caps 2).getD []))
    dialogue := String.mk (cleanCell ((getCap caps 3).getD []))
    audio := String.mk (cleanCell ((getCap caps 4).getD []))
    duration := sceneDuration tr }

/-- One section's processing inside the loop of `parse_script_md`
(videogen.py lines 47-100): skip sections that strip to empty or lack the
marker; extract the title (first match, `"Unknown"` fallback), the
character dict, and the scene rows; emit a `Script` only when at least one
scene row was recognized. -/
def parseSection (sec : List Char) : Option Script :=
  if pyStrip sec = [] ∨ ¬ containsSubstr markerStr sec then none
  else
    let title : String :=
      match reSearch titleRE sec with
      | some caps => String.mk (pyStrip ((getCap caps 1).getD []))
      | none => "Unknown"
    let characters :=
      (reFindAll charRE sec).foldl
        (fun d caps =>
          dictInsert d (String.mk (pyStrip ((getCap caps 1).getD [])))
            (String.mk (pyStrip ((getCap caps 2).getD [])))) []
    let scenes := (reFindAll tableRE sec).map mkScene
    if scenes.isEmpty then none
    else some { title := title, characters := characters, scenes := scenes }

/-- `parse_script_md` (videogen.py lines 29-102), applied to the file's
content: split before each `### 剧本标题` marker and process each section. -/
def parse_script_md (content : String) : List Script :=
  (splitBefore markerStr content.data).filterMap parseSection

/-! ## seedance_provider.py -/

/-- A remote task-status response, as returned by
`_client.content_generation.tasks.get`: the fields of the response object
the source reads (`status`, `error`) plus an opaque result payload standing
for the rest of the object. -/
structure TaskResp where
  status : String
  error : String
  payload : String
deriving DecidableEq, Repr

/-- The polling loop shared verbatim (up to the error-message prefix) by
`generate_video` (seedance_provider.py lines 76-88) and `extend_video`
(lines 149-161).  The remote service is modelled as an oracle `resp`
giving the response to the `n`-th poll; `fuel` bounds how many polls we
unfold (the source loop is unbounded, so the loop's value is `none` while
no poll below the fuel bound has produced a terminal status).  On
`"succeeded"` the whole response object is returned; on `"failed"` an
exception carrying `failMsg ++ error` is raised; on anything else the loop
sleeps and polls again. -/
def poll_loop (failMsg : String) (resp : Nat → TaskResp) :
    Nat → Nat → Option (Except String TaskResp)
  | 0, _ => none
  | fuel + 1, i =>
      let g := resp i
      if g.status = "succeeded" then some (Except.ok g)
      else if g.status = "failed" then some (Except.error (failMsg ++ g.error))
      else poll_loop failMsg resp fuel (i + 1)

/-- The poll loop of `generate_video` started at the first poll. -/
def generate_video_poll (resp : Nat → TaskResp) (fuel : Nat) :
    Option (Except String TaskResp) :=
  poll_loop "Video generation failed: " resp fuel 0

/-- The poll loop of `extend_video` started at the first poll. -/
def extend_video_poll (resp : Nat → TaskResp) (fuel : Nat) :
    Option (Except String TaskResp) :=
  poll_loop "Video extension failed: " resp fuel 0

/-- A poll response on which the source loop keeps polling. -/
def nonTerminal (g : TaskResp) : Prop :=
  g.status ≠ "succeeded" ∧ g.status ≠ "failed"

instance (g : TaskResp) : Decidable (nonTerminal g) := by
  unfold nonTerminal; infer_instance

/-- What one terminal response makes the loop do: return the object on
`"succeeded"`, raise on `"failed"`. -/
def pollOutcome (failMsg : String) (g : TaskResp) : Except String TaskResp :=
  if g.status = "succeeded" then Except.ok g else Except.error (failMsg ++ g.error)

/-! ## build_video_prompt and the batch loop of videogen.py -/

/-- `build_video_prompt` (videogen.py lines 105-127): strip bracketed and
bold markup from the visual description and append the style suffix.  The
`script` argument is accepted for context and unused, as in the source. -/
def build_video_prompt (scene : Scene) (script : Script) (style : String) : String :=
  let visual := scene.visual_description.data
  let visual := reSub bracketRE [] visual
  let visual := reSub boldRE [] visual
  String.mk (visual ++ ". ".data ++ style.data ++ " style, high quality, detailed".data)

/-- One entry of the `results` list built by `generate_videos_from_script`:
either the `result_info` success dict (videogen.py lines 195-201) or the
error dict (lines 208-212). -/
inductive VidResult where
  | success (script_title : String) (scene_index : Nat) (time_range prompt : String)
      (result : TaskResp)
  | failure (script_title : String) (scene_index : Nat) (error : String)
deriving DecidableEq, Repr

/-- The inner scene loop of `generate_videos_from_script` (videogen.py
lines 177-212), starting at scene index `j`.  `act` is the oracle for
`generate_video`, indexed by scene position and invoked with the built
prompt; a `dry_run` iteration records nothing; a successful call records
the success dict; a raised exception is caught and recorded as the error
dict, and the loop continues. -/
def processScenesAux (act : Nat → String → Except String TaskResp) (script : Script)
    (dryRun : Bool) : Nat → List Scene → List VidResult
  | _, [] => []
  | j, scene :: rest =>
      if dryRun then processScenesAux act script dryRun (j + 1) rest
      else
        let prompt := build_video_prompt scene script "cinematic"
        match act j prompt with
        | Except.ok r =>
            VidResult.success script.title j scene.time_range prompt r ::
              processScenesAux act script dryRun (j + 1) rest
        | Except.error e =>
            VidResult.failure script.title j e ::
              processScenesAux act script dryRun (j + 1) rest

/-- All scenes of one script (the `for j, scene in enumerate(...)` loop). -/
def processScenes (act : Nat → String → Except String TaskResp) (script : Script)
    (dryRun : Bool) : List VidResult :=
  processScenesAux act script dryRun 0 script.scenes

/-- The outer script loop (videogen.py lines 170-212): results of all
scripts are appended to one flat list in order. -/
def processScriptsAux (act : Nat → Nat → String → Except String TaskResp)
    (dryRun : Bool) : Nat → List Script → List VidResult
  | _, [] => []
  | i, sc :: rest =>
      processScenes (act i) sc dryRun ++ processScriptsAux act dryRun (i + 1) rest

/-- Python exceptions distinguished by `generate_videos_from_script`'s
index handling: the explicit `ValueError` of line 165 versus the
`IndexError` Python itself raises on an out-of-range negative index. -/
inductive PyErr where
  | valueError (msg : String)
  | indexError (msg : String)
deriving DecidableEq, Repr

/-- Python list indexing `l[i]` with an `int` index: non-negative indices
count from the front, negative indices from the back; out of range is an
`IndexError` (`none`). -/
def pyListGet {α : Type} (l : List α) (i : Int) : Option α :=
  if i ≥ 0 then l[i.toNat]?
  else if i + (l.length : Int) ≥ 0 then l[(i + (l.length : Int)).toNat]?
  else none

/-- The `script_index` handling of `generate_videos_from_script`
(videogen.py lines 163-166): `None` keeps all scripts; otherwise an index
`>= len(scripts)` raises `ValueError`, and any other index selects the
single script `scripts[script_index]` (Python indexing, so negative values
count from the end and may raise `IndexError`). -/
def selectScripts (scripts : List Script) (idx : Option Int) : Except PyErr (List Script) :=
  match idx with
  | none => Except.ok scripts
  | some i =>
      if i ≥ (scripts.length : Int) then
        Except.error (PyErr.valueError
          ("Script index " ++ toString i ++ " out of range (0-" ++
            toString ((scripts.length : Int) - 1) ++ ")"))
      else
        match pyListGet scripts i with
        | some s => Except.ok [s]
        | none => Except.error (PyErr.indexError "list index out of range")

/-- `generate_videos_from_script` (videogen.py lines 130-214) from the file
content onward: parse, select by `script_index`, then run the batch loop.
`act i j prompt` is the oracle for the `generate_video` call on script `i`,
scene `j`. -/
def generate_videos_from_script (act : Nat → Nat → String → Except String TaskResp)
    (content : String) (scriptIndex : Option Int) (dryRun : Bool) :
    Except PyErr (List VidResult) :=
  match selectScripts (parse_script_md content) scriptIndex with
  | Except.error e => Except.error e
  | Except.ok sel => Except.ok (processScriptsAux act dryRun 0 sel)

/-! ## story_gen.py -/

/-- Python `str.isalnum()` for one character, modelled for the character
classes this repository's topics use: ASCII letters and digits plus CJK
unified ideographs.  (Python's notion is full Unicode; no claim depends on
characters outside these classes.) -/
def pyIsAlnum (c : Char) : Bool :=
  c.isAlphanum || (0x4e00 ≤ c.toNat && c.toNat ≤ 0x9fff)

/-- `safe_topic` of `save_story` (story_gen.py line 81):
`"".join(c if c.isalnum() or c in "._-" else "_" for c in topic)[:30]`. -/
def safe_topic (topic : String) : List Char :=
  ((topic.data.map fun c =>
    if pyIsAlnum c || c = '.' || c = '_' || c = '-' then c else '_').take 30)

/-- The filename built by `save_story` (story_gen.py lines 80-86), as a
function of the topic, the formatted timestamp, and the optional batch
index. -/
def save_story_filename (topic : String) (timestamp : String) (index : Option Int) : String :=
  match index with
  | some i =>
      String.mk ("story_".data ++ safe_topic topic ++ "_".data ++ timestamp.data ++
        "_".data ++ (toString i).data ++ ".md".data)
  | none =>
      String.mk ("story_".data ++ safe_topic topic ++ "_".data ++ timestamp.data ++ ".md".data)

/-- The topic loop of `batch_generate` (story_gen.py lines 118-136),
starting at 1-based index `i` (`enumerate(topics, 1)`).  `act i topic` is
the oracle for the `generate_story`-plus-`save_story` body; on success the
saved path is appended to `saved_files`, on any exception the error is
printed and nothing is recorded; the loop always continues. -/
def batch_generateAux {α : Type} (act : Nat → String → Except String α) :
    Nat → List String → List α
  | _, [] => []
  | i, t :: ts =>
      match act i t with
      | Except.ok p => p :: batch_generateAux act (i + 1) ts
      | Except.error _ => batch_generateAux act (i + 1) ts

/-- `batch_generate` (story_gen.py lines 96-136): returns the list of
saved file paths. -/
def batch_generate {α : Type} (act : Nat → String → Except String α)
    (topics : List String) : List α :=
  batch_generateAux act 1 topics

/-! ## A declarative match relation and soundness of the engine

Only soundness (every match the engine reports is a real match) is needed
for the universal claims below; positive concrete facts are obtained by
evaluating the executable engine. -/

/-- `REMatch r u g`: the regex `r` can match exactly the characters `u`,
producing capture list `g`. -/
inductive REMatch : RE → List Char → Caps → Prop where
  | eps : REMatch RE.eps [] []
  | cls {f : Char → Bool} {c : Char} : f c = true → REMatch (RE.cls f) [c] []
  | cat {a b : RE} {u v : List Char} {g1 g2 : Caps} :
      REMatch a u g1 → REMatch b v g2 → REMatch (RE.cat a b) (u ++ v) (g1 ++ g2)
  | altL {a b : RE} {u : List Char} {g : Caps} :
      REMatch a u g → REMatch (RE.alt a b) u g
  | altR {a b : RE} {u : List Char} {g : Caps} :
      REMatch b u g → REMatch (RE.alt a b) u g
  | starGNil {a : RE} : REMatch (RE.starG a) [] []
  | starGCons {a : RE} {u v : List Char} {g1 g2 : Caps} :
      REMatch a u g1 → REMatch (RE.starG a) v g2 → REMatch (RE.starG a) (u ++ v) (g1 ++ g2)
  | starLNil {a : RE} : REMatch (RE.starL a) [] []
  | starLCons {a : RE} {u v : List Char} {g1 g2 : Caps} :
      REMatch a u g1 → REMatch (RE.starL a) v g2 → REMatch (RE.starL a) (u ++ v) (g1 ++ g2)
  | group {n : Nat} {a : RE} {u : List Char} {g : Caps} :
      REMatch a u g → REMatch (RE.group n a) u (g ++ [(n, u)])

/-- An engine layer is sound when every reported match consumes a prefix of
the input and is derivable in `REMatch`. -/
def EngineSound (f : RE → List Char → List (Caps × List Char)) : Prop :=
  ∀ r s p, p ∈ f r s → ∃ u, u ++ p.2 = s ∧ REMatch r u p.1

lemma reMIn_sound {deeper} (hd : EngineSound deeper) : EngineSound (reMIn deeper) := by
  intro r
  induction r with
  | eps =>
      intro s p hp
      simp only [reMIn, List.mem_singleton] at hp
      subst hp
      exact ⟨[], rfl, REMatch.eps⟩
  | cls f =>
      intro s p hp
      cases s with
      | nil => simp [reMIn] at hp
      | cons c t =>
          by_cases hc : f c
          · simp only [reMIn, hc, if_true, List.mem_singleton] at hp
            subst hp
            exact ⟨[c], rfl, REMatch.cls hc⟩
          · simp [reMIn, hc] at hp
  | cat a b iha ihb =>
      intro s p hp
      simp only [reMIn, List.mem_flatMap, List.mem_map] at hp
      obtain ⟨p1, hp1, q, hq, hpe⟩ := hp
      obtain ⟨u1, hu1, m1⟩ := iha s p1 hp1
      obtain ⟨u2, hu2, m2⟩ := ihb p1.2 q hq
      subst hpe
      exact ⟨u1 ++ u2, by rw [List.append_assoc, hu2, hu1], REMatch.cat m1 m2⟩
  | alt a b iha ihb =>
      intro s p hp
      rcases List.mem_append.1 hp with h | h
      · obtain ⟨u, hu, m⟩ := iha s p h
        exact ⟨u, hu, REMatch.altL m⟩
      · obtain ⟨u, hu, m⟩ := ihb s p h
        exact ⟨u, hu, REMatch.altR m⟩
  | starG a iha =>
      intro s p hp
      simp only [reMIn, List.mem_append, List.mem_flatMap, List.mem_singleton] at hp
      rcases hp with ⟨p1, hp1, hin⟩ | rfl
      · by_cases hlen : p1.2.length < s.length
        · simp only [hlen, if_true, List.mem_map] at hin
          obtain ⟨q, hq, hpe⟩ := hin
          obtain ⟨u1, hu1, m1⟩ := iha s p1 hp1
          obtain ⟨u2, hu2, m2⟩ := hd _ _ _ hq
          subst hpe
          exact ⟨u1 ++ u2, by rw [List.append_assoc, hu2, hu1], REMatch.starGCons m1 m2⟩
        · simp [hlen] at hin
      · exact ⟨[], rfl, REMatch.starGNil⟩
  | starL a iha =>
      intro s p hp
      simp only [reMIn, List.mem_cons, List.mem_flatMap] at hp
      rcases hp with rfl | ⟨p1, hp1, hin⟩
      · exact ⟨[], rfl, REMatch.starLNil⟩
      · by_cases hlen : p1.2.length < s.length
        · simp only [hlen, if_true, List.mem_map] at hin
          obtain ⟨q, hq, hpe⟩ := hin
          obtain ⟨u1, hu1, m1⟩ := iha s p1 hp1
          obtain ⟨u2, hu2, m2⟩ := hd _ _ _ hq
          subst hpe
          exact ⟨u1 ++ u2, by rw [List.append_assoc, hu2, hu1], REMatch.starLCons m1 m2⟩
        · simp [hlen] at hin
  | group n a iha =>
      intro s p hp
      simp only [reMIn, List.mem_map] at hp
      obtain ⟨q, hq, hpe⟩ := hp
      obtain ⟨u, hu, m⟩ := iha s q hq
      subst hpe
      refine ⟨u, hu, ?_⟩
      have hlen : s.length - q.2.length = u.length := by
        rw [← hu]; simp
      have htake : s.take (s.length - q.2.length) = u := by
        rw [hlen, ← hu, List.take_left]
      rw [htake]
      exact REMatch.group m

lemma reMGo_sound : ∀ n, EngineSound (reMGo n) := by
  intro n
  induction n with
  | zero => intro r s p hp; simp [reMGo] at hp
  | succ n ih => exact reMIn_sound ih

lemma reM_sound {r s p} (hp : p ∈ reM r s) : ∃ u, u ++ p.2 = s ∧ REMatch r u p.1 :=
  reMGo_sound _ r s p hp

lemma reFindAllGo_sound :
    ∀ n r s caps, caps ∈ reFindAllGo n r s → ∃ u g, REMatch r u g ∧ g = caps := by
  intro n
  induction n with
  | zero => intro r s caps h; simp [reFindAllGo] at h
  | succ n ih =>
      intro r s caps h
      unfold reFindAllGo at h
      split at h
      next p ps hm =>
        have hhead : p ∈ reM r [] := by rw [hm]; exact List.mem_cons_self _ _
        obtain ⟨u, _, m⟩ := reM_sound hhead
        rcases List.mem_singleton.1 h with rfl
        exact ⟨u, _, m, rfl⟩
      next p ps c t hm =>
        have hhead : p ∈ reM r (c :: t) := by rw [hm]; exact List.mem_cons_self _ _
        obtain ⟨u, _, m⟩ := reM_sound hhead
        split at h
        · rcases List.mem_cons.1 h with rfl | h2
          · exact ⟨u, _, m, rfl⟩
          · exact ih r p.2 _ h2
        · rcases List.mem_cons.1 h with rfl | h2
          · exact ⟨u, _, m, rfl⟩
          · exact ih r t _ h2
      next => simp at h
      next c t hm => exact ih r t caps h

lemma reFindAll_sound {r s caps} (h : caps ∈ reFindAll r s) :
    ∃ u, REMatch r u caps := by
  obtain ⟨u, g, m, rfl⟩ := reFindAllGo_sound _ r s caps h
  exact ⟨u, m⟩

/-! ## Shape facts about the embedded patterns -/

/-- Syntactic absence of capture groups. -/
def groupFree : RE → Bool
  | .eps => true
  | .cls _ => true
  | .cat a b => groupFree a && groupFree b
  | .alt a b => groupFree a && groupFree b
  | .starG a => groupFree a
  | .starL a => groupFree a
  | .group _ _ => false

lemma groupFree_caps {r u g} (h : REMatch r u g) (hg : groupFree r = true) : g = [] := by
  induction h with
  | eps => rfl
  | cls _ => rfl
  | cat h1 h2 ih1 ih2 =>
      simp only [groupFree, Bool.and_eq_true] at hg
      rw [ih1 hg.1, ih2 hg.2]; rfl
  | altL h ih => simp only [groupFree, Bool.and_eq_true] at hg; exact ih hg.1
  | altR h ih => simp only [groupFree, Bool.and_eq_true] at hg; exact ih hg.2
  | starGNil => rfl
  | starGCons h1 h2 ih1 ih2 =>
      simp only [groupFree] at hg
      rw [ih1 hg, ih2 hg]; rfl
  | starLNil => rfl
  | starLCons h1 h2 ih1 ih2 =>
      simp only [groupFree] at hg
      rw [ih1 hg, ih2 hg]; rfl
  | group h ih => simp [groupFree] at hg

lemma cls_inv {f : Char → Bool} {u g} (h : REMatch (RE.cls f) u g) :
    ∃ c, u = [c] ∧ f c = true ∧ g = [] := by
  cases h with
  | cls hc => exact ⟨_, rfl, hc, rfl⟩

lemma lit_inv {c : Char} {u g} (h : REMatch (RE.lit c) u g) : u = [c] ∧ g = [] := by
  have h2 : REMatch (RE.cls (fun x => x = c)) u g := h
  obtain ⟨d, rfl, hd, rfl⟩ := cls_inv h2
  have hdc : d = c := by simpa using hd
  subst hdc
  exact ⟨rfl, rfl⟩

lemma str_inv : ∀ {cs u g}, REMatch (RE.str cs) u g → u = cs ∧ g = [] := by
  intro cs
  induction cs with
  | nil =>
      intro u g h
      have h2 : REMatch RE.eps u g := h
      cases h2
      exact ⟨rfl, rfl⟩
  | cons c cs ih =>
      intro u g h
      have h2 : REMatch (RE.cat (RE.lit c) (RE.str cs)) u g := h
      cases h2 with
      | cat ha hb =>
          obtain ⟨rfl, rfl⟩ := lit_inv ha
          obtain ⟨rfl, rfl⟩ := ih hb
          exact ⟨rfl, rfl⟩

lemma starG_cls_inv {f : Char → Bool} :
    ∀ {r u g}, REMatch r u g → r = RE.starG (RE.cls f) →
      (∀ c ∈ u, f c = true) ∧ g = [] := by
  intro r u g h
  induction h with
  | eps => exact fun he => RE.noConfusion he
  | cls _ => exact fun he => RE.noConfusion he
  | cat h1 h2 ih1 ih2 => exact fun he => RE.noConfusion he
  | altL h ih => exact fun he => RE.noConfusion he
  | altR h ih => exact fun he => RE.noConfusion he
  | starGNil => exact fun _ => ⟨by simp, rfl⟩
  | starGCons h1 h2 ih1 ih2 =>
      intro he
      injection he with ha
      subst ha
      obtain ⟨c, rfl, hc, rfl⟩ := cls_inv h1
      obtain ⟨hall, rfl⟩ := ih2 rfl
      refine ⟨?_, rfl⟩
      intro d hd
      rcases List.mem_append.1 hd with hd | hd
      · rcases List.mem_singleton.1 hd with rfl; exact hc
      · exact hall d hd
  | starLNil => exact fun he => RE.noConfusion he
  | starLCons h1 h2 ih1 ih2 => exact fun he => RE.noConfusion he
  | group h ih => exact fun he => RE.noConfusion he

lemma plusG_cls_inv {f : Char → Bool} {u g} (h : REMatch (RE.plusG (RE.cls f)) u g) :
    u ≠ [] ∧ (∀ c ∈ u, f c = true) ∧ g = [] := by
  have h2 : REMatch (RE.cat (RE.cls f) (RE.starG (RE.cls f))) u g := h
  cases h2 with
  | cat ha hb =>
      obtain ⟨c, rfl, hc, rfl⟩ := cls_inv ha
      obtain ⟨hall, rfl⟩ := starG_cls_inv hb rfl
      refine ⟨by simp, ?_, rfl⟩
      intro d hd
      rcases List.mem_append.1 hd with hd | hd
      · rcases List.mem_singleton.1 hd with rfl; exact hc
      · exact hall d hd

lemma rangeRE_inv {u g} (h : REMatch rangeRE u g) :
    ∃ d1 d2, u = d1 ++ '-' :: (d2 ++ ['s']) ∧ d1 ≠ [] ∧ d2 ≠ [] ∧
      (∀ c ∈ d1, isDig c = true) ∧ (∀ c ∈ d2, isDig c = true) := by
  have h2 : REMatch (RE.cat (RE.plusG (RE.cls isDig)) (RE.cat (RE.lit '-')
      (RE.cat (RE.plusG (RE.cls isDig)) (RE.lit 's')))) u g := h
  cases h2 with
  | cat hd1 hrest =>
      obtain ⟨hne1, hall1, rfl⟩ := plusG_cls_inv hd1
      cases hrest with
      | cat hdash hrest2 =>
          obtain ⟨rfl, rfl⟩ := lit_inv hdash
          cases hrest2 with
          | cat hd2 hs =>
              obtain ⟨hne2, hall2, rfl⟩ := plusG_cls_inv hd2
              obtain ⟨rfl, rfl⟩ := lit_inv hs
              exact ⟨_, _, by simp, hne1, hne2, hall1, hall2⟩

lemma cat_inv {a b : RE} {u g} (h : REMatch (RE.cat a b) u g) :
    ∃ u1 u2 g1 g2, u = u1 ++ u2 ∧ g = g1 ++ g2 ∧ REMatch a u1 g1 ∧ REMatch b u2 g2 := by
  cases h with
  | cat h1 h2 => exact ⟨_, _, _, _, rfl, rfl, h1, h2⟩

lemma group_inv {n : Nat} {a : RE} {u g} (h : REMatch (RE.group n a) u g) :
    ∃ g1, g = g1 ++ [(n, u)] ∧ REMatch a u g1 := by
  cases h with
  | group h1 => exact ⟨_, rfl, h1⟩

lemma alt_inv {a b : RE} {u g} (h : REMatch (RE.alt a b) u g) :
    REMatch a u g ∨ REMatch b u g := by
  cases h with
  | altL h1 => exact Or.inl h1
  | altR h1 => exact Or.inr h1

/-- Every match of the table-row pattern captures, as group 1, either the
ending sentinel `结尾` or a numeric `start-end` range with an `s` suffix;
group 1 is the first capture in the list. -/
lemma tableRE_caps {u caps} (h : REMatch tableRE u caps) :
    ∃ tr rest, caps = (1, tr) :: rest ∧
      (tr = "结尾".data ∨ ∃ d1 d2, tr = d1 ++ '-' :: (d2 ++ ['s']) ∧ d1 ≠ [] ∧ d2 ≠ [] ∧
        (∀ c ∈ d1, isDig c = true) ∧ (∀ c ∈ d2, isDig c = true)) := by
  have h2 : REMatch (RE.cat (RE.lit '|') (RE.cat wsStar (RE.cat (RE.str "**".data)
      (RE.cat (RE.group 1 (RE.alt rangeRE (RE.str "结尾".data)))
        (RE.cat (RE.str "**".data) (RE.cat wsStar (RE.cat (RE.lit '|')
          (RE.cat (colRE 2) (RE.cat (colRE 3) (colRE 4)))))))))) u caps := h
  clear h
  obtain ⟨u1, u2, g1, g2, rfl, rfl, hpipe, h3⟩ := cat_inv h2
  obtain ⟨rfl, rfl⟩ := lit_inv hpipe
  obtain ⟨u3, u4, g3, g4, rfl, rfl, hws, h4⟩ := cat_inv h3
  rw [groupFree_caps hws rfl]
  obtain ⟨u5, u6, g5, g6, rfl, rfl, hstar, h5⟩ := cat_inv h4
  rw [groupFree_caps hstar rfl]
  obtain ⟨u7, u8, g7, g8, rfl, rfl, hgrp, h6⟩ := cat_inv h5
  obtain ⟨g9, rfl, hmid⟩ := group_inv hgrp
  rw [groupFree_caps hmid rfl]
  refine ⟨u7, g8, by simp, ?_⟩
  rcases alt_inv hmid with hr | hs
  · obtain ⟨d1, d2, rfl, hne1, hne2, hall1, hall2⟩ := rangeRE_inv hr
    exact Or.inr ⟨d1, d2, rfl, hne1, hne2, hall1, hall2⟩
  · obtain ⟨rfl, rfl⟩ := str_inv hs
    exact Or.inl rfl

/-- Every match of the character-bullet pattern captures, as group 1, a
role name beginning with `角色A` or `角色B`; group 1 is the first capture. -/
lemma charRE_caps {u caps} (h : REMatch charRE u caps) :
    ∃ role rest ab tail, caps = (1, role) :: rest ∧
      role = "角色".data ++ ab :: tail ∧ (ab = 'A' ∨ ab = 'B') := by
  have h2 : REMatch (RE.cat (RE.lit '*') (RE.cat wsStar (RE.cat (RE.str "**".data)
      (RE.cat (RE.group 1 (RE.cat (RE.str "角色".data)
          (RE.cat (RE.cls (fun c => c = 'A' || c = 'B')) (RE.starL dotRE))))
        (RE.cat (RE.str "**".data) (RE.cat colonCls
          (RE.cat wsStar (RE.group 2 (RE.plusG dotRE))))))))) u caps := h
  clear h
  obtain ⟨u1, u2, g1, g2, rfl, rfl, hstar, h3⟩ := cat_inv h2
  obtain ⟨rfl, rfl⟩ := lit_inv hstar
  obtain ⟨u3, u4, g3, g4, rfl, rfl, hws, h4⟩ := cat_inv h3
  rw [groupFree_caps hws rfl]
  obtain ⟨u5, u6, g5, g6, rfl, rfl, hbold, h5⟩ := cat_inv h4
  rw [groupFree_caps hbold rfl]
  obtain ⟨u7, u8, g7, g8, rfl, rfl, hgrp, h6⟩ := cat_inv h5
  obtain ⟨g9, rfl, hrole⟩ := group_inv hgrp
  rw [groupFree_caps hrole rfl]
  obtain ⟨u9, u10, g10, g11, rfl, rfl, hjs, h7⟩ := cat_inv hrole
  obtain ⟨rfl, rfl⟩ := str_inv hjs
  obtain ⟨u11, u12, g12, g13, rfl, rfl, hab, htail⟩ := cat_inv h7
  obtain ⟨ab, rfl, hab2, rfl⟩ := cls_inv hab
  refine ⟨"角色".data ++ ab :: u12, g8, ab, u12, by simp, rfl, ?_⟩
  have hab3 : ab = 'A' ∨ ab = 'B' := by simpa using hab2
  exact hab3

/-! ## Facts about the Python string helpers -/

lemma dropWhile_eq_self_of_all {p : Char → Bool} {l : List Char}
    (h : ∀ c ∈ l, p c = false) : l.dropWhile p = l := by
  cases l with
  | nil => rfl
  | cons c t =>
      rw [List.dropWhile_cons_of_neg]
      simp [h c (List.mem_cons_self c t)]

lemma pyStrip_eq_self_of_all {l : List Char} (h : ∀ c ∈ l, isWS c = false) :
    pyStrip l = l := by
  unfold pyStrip
  rw [dropWhile_eq_self_of_all h,
    dropWhile_eq_self_of_all (fun c hc => h c (List.mem_reverse.1 hc)),
    List.reverse_reverse]

lemma pyStrip_append_nonws {pre tail : List Char} (hne : pre ≠ [])
    (hws : ∀ c ∈ pre, isWS c = false) :
    pyStrip (pre ++ tail) = pre ++ (tail.reverse.dropWhile isWS).reverse := by
  unfold pyStrip
  have h1 : (pre ++ tail).dropWhile isWS = pre ++ tail := by
    cases pre with
    | nil => exact absurd rfl hne
    | cons c t =>
        rw [List.cons_append, List.dropWhile_cons_of_neg]
        simp [hws c (List.mem_cons_self c t)]
  rw [h1, List.reverse_append]
  have h2 : (tail.reverse ++ pre.reverse).dropWhile isWS
      = tail.reverse.dropWhile isWS ++ pre.reverse := by
    rw [List.dropWhile_append]
    by_cases hall : (tail.reverse.dropWhile isWS).isEmpty
    · rw [if_pos hall]
      rw [List.isEmpty_iff] at hall
      rw [hall, List.nil_append]
      exact dropWhile_eq_self_of_all (fun c hc => hws c (List.mem_reverse.1 hc))
    · rw [if_neg hall]
  rw [h2, List.reverse_append, List.reverse_reverse]

lemma pySplitCharAux_no_sep {sep : Char} :
    ∀ (l acc : List Char), (∀ c ∈ l, c ≠ sep) →
      pySplitCharAux sep acc l = [acc.reverse ++ l] := by
  intro l
  induction l with
  | nil => intro acc h; simp [pySplitCharAux]
  | cons c t ih =>
      intro acc h
      simp only [pySplitCharAux]
      rw [if_neg (h c (List.mem_cons_self c t))]
      rw [ih (c :: acc) (fun d hd => h d (List.mem_cons_of_mem c hd))]
      simp

lemma pySplitCharAux_mid {sep : Char} {rest : List Char} :
    ∀ (l acc : List Char), (∀ c ∈ l, c ≠ sep) →
      pySplitCharAux sep acc (l ++ sep :: rest)
        = (acc.reverse ++ l) :: pySplitCharAux sep [] rest := by
  intro l
  induction l with
  | nil =>
      intro acc h
      simp [pySplitCharAux]
  | cons c t ih =>
      intro acc h
      simp only [List.cons_append, pySplitCharAux, List.append_eq]
      rw [if_neg (h c (List.mem_cons_self c t))]
      rw [ih (c :: acc) (fun d hd => h d (List.mem_cons_of_mem c hd))]
      simp

lemma pySplitChar_two {d1 d2 : List Char} (h1 : ∀ c ∈ d1, c ≠ '-')
    (h2 : ∀ c ∈ d2, c ≠ '-') :
    pySplitChar '-' (d1 ++ '-' :: d2) = [d1, d2] := by
  unfold pySplitChar
  rw [pySplitCharAux_mid d1 [] h1, pySplitCharAux_no_sep d2 [] h2]
  simp

/-- Character facts about ASCII digits used by the duration parser. -/
lemma isDig_ne {c : Char} (h : isDig c = true) :
    c ≠ 's' ∧ c ≠ '-' ∧ c ≠ '+' ∧ isWS c = false := by
  refine ⟨?_, ?_, ?_, ?_⟩
  · intro he; subst he; exact absurd h (by decide)
  · intro he; subst he; exact absurd h (by decide)
  · intro he; subst he; exact absurd h (by decide)
  · by_contra hws
    rw [Bool.not_eq_false] at hws
    have hcs : (((((c = ' ' ∨ c = '\t') ∨ c = '\n') ∨ c = '\r') ∨ c = '\x0b') ∨ c = '\x0c') := by
      simpa [isWS] using hws
    rcases hcs with ((((rfl | rfl) | rfl) | rfl) | rfl) | rfl <;> exact absurd h (by decide)

lemma pyInt?_digits {d : List Char} (hne : d ≠ []) (hall : ∀ c ∈ d, isDig c = true) :
    pyInt? d = some ((digitsToNat d : Int)) := by
  have hstrip : pyStrip d = d :=
    pyStrip_eq_self_of_all (fun c hc => (isDig_ne (hall c hc)).2.2.2)
  cases d with
  | nil => exact absurd rfl hne
  | cons c ds =>
      have hc := isDig_ne (hall c (List.mem_cons_self c ds))
      simp only [pyInt?, hstrip]
      rw [if_neg hc.2.2.1, if_neg hc.2.1,
        if_pos (by rw [List.all_eq_true]; exact fun x hx => hall x hx)]

lemma sceneDuration_range {d1 d2 : List Char} (h1 : d1 ≠ []) (h2 : d2 ≠ [])
    (hall1 : ∀ c ∈ d1, isDig c = true) (hall2 : ∀ c ∈ d2, isDig c = true) :
    sceneDuration (d1 ++ '-' :: (d2 ++ ['s']))
      = (digitsToNat d2 : Int) - (digitsToNat d1 : Int) := by
  unfold sceneDuration
  rw [if_neg ?hkw]
  case hkw =>
    intro he
    cases d1 with
    | nil => exact h1 rfl
    | cons c t =>
        rw [List.cons_append] at he
        injection he with hc _
        subst hc
        exact absurd (hall1 _ (List.mem_cons_self _ t)) (by decide)
  have hrem : pyRemoveS (d1 ++ '-' :: (d2 ++ ['s'])) = d1 ++ '-' :: d2 := by
    unfold pyRemoveS
    rw [List.filter_append, List.filter_cons]
    have e1 : d1.filter (fun c => decide (c ≠ 's')) = d1 :=
      List.filter_eq_self.mpr (fun a ha => by simpa using (isDig_ne (hall1 a ha)).1)
    have e2 : (d2 ++ ['s']).filter (fun c => decide (c ≠ 's')) = d2 := by
      rw [List.filter_append]
      have e3 : d2.filter (fun c => decide (c ≠ 's')) = d2 :=
        List.filter_eq_self.mpr (fun a ha => by simpa using (isDig_ne (hall2 a ha)).1)
      rw [e3]; simp
    rw [e1, e2]
    simp
  rw [hrem, pySplitChar_two (fun c hc => (isDig_ne (hall1 c hc)).2.1)
    (fun c hc => (isDig_ne (hall2 c hc)).2.1)]
  simp only [pyInt?_digits h1 hall1, pyInt?_digits h2 hall2]

lemma dash_split_unique :
    ∀ (d1 d1' r r' : List Char), (∀ c ∈ d1, c ≠ '-') → (∀ c ∈ d1', c ≠ '-') →
      d1 ++ '-' :: r = d1' ++ '-' :: r' → d1 = d1' ∧ r = r' := by
  intro d1
  induction d1 with
  | nil =>
      intro d1' r r' h1 h2 he
      cases d1' with
      | nil => simpa using he
      | cons c t =>
          simp only [List.nil_append, List.cons_append] at he
          injection he with hc _
          exact absurd hc.symm (h2 c (List.mem_cons_self c t))
  | cons c t ih =>
      intro d1' r r' h1 h2 he
      cases d1' with
      | nil =>
          simp only [List.cons_append, List.nil_append] at he
          injection he with hc _
          exact absurd hc (h1 c (List.mem_cons_self c t))
      | cons c2 t2 =>
          simp only [List.cons_append] at he
          injection he with hc hrest
          subst hc
          obtain ⟨ha, hb⟩ := ih t2 r r' (fun d hd => h1 d (List.mem_cons_of_mem c hd))
            (fun d hd => h2 d (List.mem_cons_of_mem c hd)) hrest
          exact ⟨by rw [ha], hb⟩

/-! ## Facts about parse_script_md -/

lemma parseSection_fields {sec : List Char} {script : Script}
    (h : parseSection sec = some script) :
    script.scenes = (reFindAll tableRE sec).map mkScene ∧
      script.characters = (reFindAll charRE sec).foldl
        (fun d caps =>
          dictInsert d (String.mk (pyStrip ((getCap caps 1).getD [])))
            (String.mk (pyStrip ((getCap caps 2).getD [])))) [] ∧
      script.scenes ≠ [] := by
  simp only [parseSection] at h
  split at h
  · exact absurd h (by simp)
  · split at h
    next hempty => exact absurd h (by simp)
    next hempty =>
      injection h with h
      subst h
      refine ⟨rfl, rfl, ?_⟩
      intro hnil
      rw [← List.isEmpty_iff] at hnil
      exact hempty hnil

lemma parse_mem {content : String} {script : Script}
    (h : script ∈ parse_script_md content) :
    ∃ sec, parseSection sec = some script := by
  unfold parse_script_md at h
  obtain ⟨sec, _, hsec⟩ := List.mem_filterMap.1 h
  exact ⟨sec, hsec⟩

/-- Every scene emitted by the parser carries either the ending sentinel and
duration 3, or a numeric `start-end` time range and duration `end - start`. -/
lemma parse_scene_shape {content : String} {script : Script} {scene : Scene}
    (hs : script ∈ parse_script_md content) (hsc : scene ∈ script.scenes) :
    (scene.time_range = "结尾" ∧ scene.duration = 3) ∨
      (∃ d1 d2, d1 ≠ [] ∧ d2 ≠ [] ∧ (∀ c ∈ d1, isDig c = true) ∧ (∀ c ∈ d2, isDig c = true) ∧
        scene.time_range = String.mk (d1 ++ '-' :: (d2 ++ ['s'])) ∧
        scene.duration = (digitsToNat d2 : Int) - (digitsToNat d1 : Int)) := by
  obtain ⟨sec, hsec⟩ := parse_mem hs
  obtain ⟨hmap, _, _⟩ := parseSection_fields hsec
  rw [hmap] at hsc
  obtain ⟨caps, hcaps, rfl⟩ := List.mem_map.1 hsc
  obtain ⟨u, m⟩ := reFindAll_sound hcaps
  obtain ⟨tr, rest, rfl, hshape⟩ := tableRE_caps m
  have hget : getCap ((1, tr) :: rest) 1 = some tr := by
    simp [getCap, List.find?]
  rcases hshape with hkw | ⟨d1, d2, rfl, hne1, hne2, hall1, hall2⟩
  · subst hkw
    left
    constructor
    · simp only [mkScene, hget, Option.getD_some]
    · simp only [mkScene, hget, Option.getD_some]
      simp [sceneDuration]
  · right
    refine ⟨d1, d2, hne1, hne2, hall1, hall2, ?_, ?_⟩
    · simp only [mkScene, hget, Option.getD_some]
    · simp only [mkScene, hget, Option.getD_some]
      exact sceneDuration_range hne1 hne2 hall1 hall2

/-- Membership in the result of a Python dict assignment. -/
lemma dictInsert_mem {d : List (String × String)} {k v : String} {q}
    (h : q ∈ dictInsert d k v) : q ∈ d ∨ q = (k, v) := by
  unfold dictInsert at h
  split at h
  · obtain ⟨p, hp, he⟩ := List.mem_map.1 h
    by_cases hk : p.1 = k
    · rw [if_pos hk] at he
      exact Or.inr he.symm
    · rw [if_neg hk] at he
      exact Or.inl (he ▸ hp)
  · rcases List.mem_append.1 h with h | h
    · exact Or.inl h
    · exact Or.inr (List.mem_singleton.1 h)

/-- Membership in a dict built by folding `dictInsert` over a list. -/
lemma foldl_dictInsert_mem {β : Type} (fk fv : β → String) :
    ∀ (l : List β) (d : List (String × String)) q,
      q ∈ l.foldl (fun d c => dictInsert d (fk c) (fv c)) d →
        q ∈ d ∨ ∃ c ∈ l, q = (fk c, fv c) := by
  intro l
  induction l with
  | nil => intro d q h; exact Or.inl h
  | cons c t ih =>
      intro d q h
      rw [List.foldl_cons] at h
      rcases ih _ q h with h2 | ⟨c2, hc2, he⟩
      · rcases dictInsert_mem h2 with h3 | h3
        · exact Or.inl h3
        · exact Or.inr ⟨c, List.mem_cons_self c t, h3⟩
      · exact Or.inr ⟨c2, List.mem_cons_of_mem c hc2, he⟩

/-- Every key of a parsed script's character map starts with `角色A` or
`角色B`. -/
lemma parse_characters_shape {content : String} {script : Script} {kv : String × String}
    (hs : script ∈ parse_script_md content) (hkv : kv ∈ script.characters) :
    ∃ ab tail, (ab = 'A' ∨ ab = 'B') ∧ kv.1 = String.mk ("角色".data ++ ab :: tail) := by
  obtain ⟨sec, hsec⟩ := parse_mem hs
  obtain ⟨_, hchars, _⟩ := parseSection_fields hsec
  rw [hchars] at hkv
  rcases foldl_dictInsert_mem _ _ _ _ _ hkv with h | ⟨caps, hcaps, he⟩
  · simp at h
  · obtain ⟨u, m⟩ := reFindAll_sound hcaps
    obtain ⟨role, rest, ab, tail, rfl, hrole, hab⟩ := charRE_caps m
    have hget : getCap ((1, role) :: rest) 1 = some role := by
      simp [getCap, List.find?]
    subst hrole
    have hpre : pyStrip ("角色".data ++ ab :: tail)
        = ("角色".data ++ [ab]) ++ (tail.reverse.dropWhile isWS).reverse := by
      have hws2 : ∀ c ∈ "角色".data ++ [ab], isWS c = false := by
        intro c hc
        have hc2 : c = '角' ∨ c = '色' ∨ c = ab := by
          simpa using hc
        rcases hc2 with rfl | rfl | rfl
        · decide
        · decide
        · rcases hab with rfl | rfl <;> decide
      have := @pyStrip_append_nonws ("角色".data ++ [ab]) tail (by simp) hws2
      simpa using this
    refine ⟨ab, (tail.reverse.dropWhile isWS).reverse, hab, ?_⟩
    rw [he]
    simp only [hget, Option.getD_some]
    rw [hpre]
    simp

/-! ## Facts about the polling loop -/

lemma poll_loop_none {failMsg : String} {resp : Nat → TaskResp} :
    ∀ (fuel i : Nat), (∀ m, i ≤ m → m < i + fuel → nonTerminal (resp m)) →
      poll_loop failMsg resp fuel i = none := by
  intro fuel
  induction fuel with
  | zero => intro i _; rfl
  | succ fuel ih =>
      intro i h
      have hi := h i (Nat.le_refl i) (by omega)
      simp only [poll_loop]
      rw [if_neg hi.1, if_neg hi.2]
      exact ih (i + 1) (fun m hm1 hm2 => h m (by omega) (by omega))

lemma poll_loop_reach {failMsg : String} {resp : Nat → TaskResp} :
    ∀ (fuel i n : Nat), i ≤ n → n < i + fuel →
      (∀ m, i ≤ m → m < n → nonTerminal (resp m)) →
      ¬ nonTerminal (resp n) →
      poll_loop failMsg resp fuel i = some (pollOutcome failMsg (resp n)) := by
  intro fuel
  induction fuel with
  | zero => intro i n h1 h2; omega
  | succ fuel ih =>
      intro i n h1 h2 hpre hterm
      simp only [poll_loop]
      by_cases hin : i = n
      · subst hin
        unfold nonTerminal at hterm
        push_neg at hterm
        by_cases hsucc : (resp i).status = "succeeded"
        · rw [if_pos hsucc]
          unfold pollOutcome
          rw [if_pos hsucc]
        · have hfail : (resp i).status = "failed" := hterm hsucc
          rw [if_neg hsucc, if_pos hfail]
          unfold pollOutcome
          rw [if_neg hsucc]
      · have hi : nonTerminal (resp i) := hpre i (Nat.le_refl i) (by omega)
        rw [if_neg hi.1, if_neg hi.2]
        exact ih (i + 1) n (by omega) (by omega)
          (fun m hm1 hm2 => hpre m (by omega) hm2) hterm

lemma poll_loop_some_inv {failMsg : String} {resp : Nat → TaskResp} :
    ∀ (fuel i : Nat) (out : Except String TaskResp),
      poll_loop failMsg resp fuel i = some out →
      ∃ n, i ≤ n ∧ n < i + fuel ∧ (∀ m, i ≤ m → m < n → nonTerminal (resp m)) ∧
        ¬ nonTerminal (resp n) ∧ out = pollOutcome failMsg (resp n) := by
  intro fuel
  induction fuel with
  | zero => intro i out h; exact absurd h (by simp [poll_loop])
  | succ fuel ih =>
      intro i out h
      simp only [poll_loop] at h
      by_cases hsucc : (resp i).status = "succeeded"
      · rw [if_pos hsucc] at h
        injection h with h
        refine ⟨i, Nat.le_refl i, by omega,
          fun m hm1 hm2 => absurd (Nat.lt_of_le_of_lt hm1 hm2) (Nat.lt_irrefl i),
          fun hnt => hnt.1 hsucc, ?_⟩
        rw [← h]
        unfold pollOutcome
        rw [if_pos hsucc]
      · rw [if_neg hsucc] at h
        by_cases hfail : (resp i).status = "failed"
        · rw [if_pos hfail] at h
          injection h with h
          refine ⟨i, Nat.le_refl i, by omega,
            fun m hm1 hm2 => absurd (Nat.lt_of_le_of_lt hm1 hm2) (Nat.lt_irrefl i),
            fun hnt => hnt.2 hfail, ?_⟩
          rw [← h]
          unfold pollOutcome
          rw [if_neg hsucc]
        · rw [if_neg hfail] at h
          obtain ⟨n, hn1, hn2, hpre, hterm, hout⟩ := ih (i + 1) out h
          refine ⟨n, by omega, by omega, ?_, hterm, hout⟩
          intro m hm1 hm2
          rcases Nat.eq_or_lt_of_le hm1 with rfl | hm3
          · exact ⟨hsucc, hfail⟩
          · exact hpre m (by omega) hm2

/-! ## Facts about the batch loops -/

lemma processScenesAux_char {act : Nat → String → Except String TaskResp} {script : Script} :
    ∀ (scenes : List Scene) (j0 : Nat),
      (processScenesAux act script false j0 scenes).length = scenes.length ∧
      ∀ idx (scene : Scene), scenes[idx]? = some scene →
        (processScenesAux act script false j0 scenes)[idx]? =
          some (match act (j0 + idx) (build_video_prompt scene script "cinematic") with
            | Except.ok r => VidResult.success script.title (j0 + idx) scene.time_range
                (build_video_prompt scene script "cinematic") r
            | Except.error e => VidResult.failure script.title (j0 + idx) e) := by
  intro scenes
  induction scenes with
  | nil =>
      intro j0
      exact ⟨rfl, fun idx scene h => absurd h (by simp)⟩
  | cons sc rest ih =>
      intro j0
      have hred : processScenesAux act script false j0 (sc :: rest) =
          (match act j0 (build_video_prompt sc script "cinematic") with
            | Except.ok r => VidResult.success script.title j0 sc.time_range
                (build_video_prompt sc script "cinematic") r
            | Except.error e => VidResult.failure script.title j0 e) ::
            processScenesAux act script false (j0 + 1) rest := by
        simp only [processScenesAux]
        cases act j0 (build_video_prompt sc script "cinematic") <;> simp
      constructor
      · rw [hred]
        simp [(ih (j0 + 1)).1]
      · intro idx scene h
        rw [hred]
        cases idx with
        | zero =>
            simp only [List.getElem?_cons_zero] at h ⊢
            injection h with h
            subst h
            simp
        | succ idx =>
            simp only [List.getElem?_cons_succ] at h ⊢
            have hcomm : j0 + (idx + 1) = (j0 + 1) + idx := by omega
            rw [hcomm]
            exact (ih (j0 + 1)).2 idx scene h

lemma batch_generateAux_append {α : Type} (act : Nat → String → Except String α) :
    ∀ (t1 t2 : List String) (i : Nat),
      batch_generateAux act i (t1 ++ t2) =
        batch_generateAux act i t1 ++ batch_generateAux act (i + t1.length) t2 := by
  intro t1
  induction t1 with
  | nil => intro t2 i; simp [batch_generateAux]
  | cons t ts ih =>
      intro t2 i
      rw [List.cons_append]
      cases hact : act i t with
      | ok p =>
          simp only [batch_generateAux, hact, List.append_eq]
          rw [ih t2 (i + 1)]
          simp only [List.cons_append, List.length_cons]
          rw [show i + 1 + ts.length = i + (ts.length + 1) by omega]
      | error e =>
          simp only [batch_generateAux, hact, List.append_eq]
          rw [ih t2 (i + 1)]
          simp only [List.length_cons]
          rw [show i + 1 + ts.length = i + (ts.length + 1) by omega]

lemma batch_generateAux_all_ok {α : Type} {act : Nat → String → Except String α}
    {rs : Nat → α} :
    ∀ (topics : List String) (i : Nat),
      (∀ j (h : j < topics.length), act (i + j) (topics.get ⟨j, h⟩) = Except.ok (rs (i + j))) →
      batch_generateAux act i topics = (List.range topics.length).map (fun j => rs (i + j)) := by
  intro topics
  induction topics with
  | nil => intro i _; rfl
  | cons t ts ih =>
      intro i h
      have h0 := h 0 (by simp)
      simp only [List.get] at h0
      rw [show i + 0 = i by omega] at h0
      simp only [batch_generateAux, h0]
      rw [ih (i + 1) (fun j hj => by
        have h2 := h (j + 1) (by simpa using Nat.succ_lt_succ hj)
        simp only [List.get] at h2
        rw [show i + (j + 1) = i + 1 + j by omega] at h2
        exact h2)]
      simp only [List.length_cons]
      rw [List.range_succ_eq_map]
      simp only [List.map_cons, List.map_map]
      congr 1
      apply List.map_congr_left
      intro a _
      simp only [Function.comp_apply]
      congr 1
      omega

/-! ## Concrete documents used as test inputs -/

/-- A document with three well-formed rows: `0-5s`, `5-10s`, and the ending
sentinel. -/
def c3doc : String :=
  "### 剧本标题: T\n| **0-5s** | v | d | a |\n| **5-10s** | w | e | b |\n| **结尾** | x | f | c |"

/-- First scene of `c3doc`. -/
def sc05 : Scene :=
  { time_range := "0-5s", visual_description := "v", dialogue := "d", audio := "a", duration := 5 }

/-- Second scene of `c3doc`. -/
def sc510 : Scene :=
  { time_range := "5-10s", visual_description := "w", dialogue := "e", audio := "b", duration := 5 }

/-- Third scene of `c3doc`. -/
def scEnd : Scene :=
  { time_range := "结尾", visual_description := "x", dialogue := "f", audio := "c", duration := 3 }

/-- The script that `parse_script_md` produces for `c3doc`. -/
def c3script : Script := { title := "T", characters := [], scenes := [sc05, sc510, scEnd] }

lemma c3doc_parse : parse_script_md c3doc = [c3script] := by decide

/-- A document whose single table row has the non-conforming time-range
label `abc`. -/
def abcDoc : String := "### 剧本标题: T\n| **abc** | v | d | a |\n"

/-- A document with the title marker but no recognizable table row. -/
def noRowsDoc : String := "### 剧本标题: T\nno table here\n"

/-- A document with one canonical character bullet (`角色A`), one
non-canonical bullet (`角色C`), and one scene row. -/
def charDoc : String :=
  "### 剧本标题: T\n* **角色A**: hero\n* **角色C**: bad\n| **0-5s** | v | d | a |\n"

/-- The single scene of `charDoc`. -/
def scChar : Scene :=
  { time_range := "0-5s", visual_description := "v", dialogue := "d", audio := "a", duration := 5 }

/-- The script that `parse_script_md` produces for `charDoc`. -/
def charScript : Script :=
  { title := "T", characters := [("角色A", "hero")], scenes := [scChar] }

lemma charDoc_parse : parse_script_md charDoc = [charScript] := by decide

/-- A document whose single row has a reversed time range `10-5s`. -/
def negDoc : String := "### 剧本标题: T\n| **10-5s** | v | d | a |\n"

/-! ## Claim C2 -/

/-- C2, counterexample: the claim says a table row with the non-conforming
label `"abc"` still yields a Scene with the default duration 5.  In fact the
table pattern does not match such a row at all, so `parse_script_md`
produces no Script (hence no Scene) for this document. -/
theorem C2_counterexample : parse_script_md abcDoc = [] := by decide

/-- C2 (amended): a row with a non-conforming time-range label produces no
Scene (the table pattern only matches the sentinel or a numeric range), so
every Scene in the parser's output has a conforming label; the 5-second
default is never exercised by a non-conforming label. -/
theorem C2_amended :
    ∀ (content : String) (script : Script) (scene : Scene),
      script ∈ parse_script_md content → scene ∈ script.scenes →
      scene.time_range = "结尾" ∨
        ∃ d1 d2, d1 ≠ [] ∧ d2 ≠ [] ∧ (∀ c ∈ d1, isDig c = true) ∧
          (∀ c ∈ d2, isDig c = true) ∧
          scene.time_range = String.mk (d1 ++ '-' :: (d2 ++ ['s'])) := by
  intro content script scene hs hsc
  rcases parse_scene_shape hs hsc with ⟨h1, _⟩ | ⟨d1, d2, hne1, hne2, hall1, hall2, h1, _⟩
  · exact Or.inl h1
  · exact Or.inr ⟨d1, d2, hne1, hne2, hall1, hall2, h1⟩

/-- C2, witness for the amended theorem at a concrete parse. -/
theorem C2_witness :
    sc05.time_range = "结尾" ∨
      ∃ d1 d2, d1 ≠ [] ∧ d2 ≠ [] ∧ (∀ c ∈ d1, isDig c = true) ∧
        (∀ c ∈ d2, isDig c = true) ∧
        sc05.time_range = String.mk (d1 ++ '-' :: (d2 ++ ['s'])) :=
  C2_amended c3doc c3script sc05
    (by rw [c3doc_parse]; exact List.mem_cons_self _ _) (by simp [c3script])

/-! ## Claim C3 -/

/-- C3: for every scene recognized by `parse_script_md`, the sentinel `结尾`
yields duration 3 and a numeric range `start-end` followed by `s` yields
duration `end - start`; in particular `c3doc`'s rows `0-5s`, `5-10s` and
`结尾` parse to durations 5, 5 and 3. -/
theorem C3_parse_durations :
    (∀ (content : String) (script : Script) (scene : Scene),
      script ∈ parse_script_md content → scene ∈ script.scenes →
        (scene.time_range = "结尾" → scene.duration = 3) ∧
        (∀ d1 d2, d1 ≠ [] → d2 ≠ [] → (∀ c ∈ d1, isDig c = true) →
          (∀ c ∈ d2, isDig c = true) →
          scene.time_range = String.mk (d1 ++ '-' :: (d2 ++ ['s'])) →
          scene.duration = (digitsToNat d2 : Int) - (digitsToNat d1 : Int))) ∧
    parse_script_md c3doc = [c3script] := by
  constructor
  · intro content script scene hs hsc
    constructor
    · intro hkw
      rcases parse_scene_shape hs hsc with ⟨_, h2⟩ | ⟨d1, d2, hne1, _, hall1, _, h1, _⟩
      · exact h2
      · rw [hkw] at h1
        have hdata : "结尾".data = d1 ++ '-' :: (d2 ++ ['s']) := congrArg String.data h1
        cases d1 with
        | nil => exact absurd rfl hne1
        | cons c t =>
            rw [List.cons_append] at hdata
            injection hdata with hc _
            have hdig := hall1 c (List.mem_cons_self c t)
            rw [← hc] at hdig
            exact absurd hdig (by decide)
    · intro d1 d2 hne1 hne2 hall1 hall2 htr
      rcases parse_scene_shape hs hsc with ⟨h1, _⟩ |
        ⟨d1', d2', hne1', hne2', hall1', hall2', h1, h2⟩
      · rw [h1] at htr
        have hdata : "结尾".data = d1 ++ '-' :: (d2 ++ ['s']) := congrArg String.data htr
        cases d1 with
        | nil => exact absurd rfl hne1
        | cons c t =>
            rw [List.cons_append] at hdata
            injection hdata with hc _
            have hdig := hall1 c (List.mem_cons_self c t)
            rw [← hc] at hdig
            exact absurd hdig (by decide)
      · rw [h1] at htr
        have hdata : d1' ++ '-' :: (d2' ++ ['s']) = d1 ++ '-' :: (d2 ++ ['s']) := by
          have h3 := congrArg String.data htr
          simpa using h3
        obtain ⟨hd1, hd2⟩ := dash_split_unique d1' d1 _ _
          (fun c hc => (isDig_ne (hall1' c hc)).2.1)
          (fun c hc => (isDig_ne (hall1 c hc)).2.1) hdata
        have hd2e : d2' = d2 := by
          have h4 := congrArg List.reverse hd2
          simp only [List.reverse_append] at h4
          simp at h4
          exact h4
        rw [h2, hd1, hd2e]
  · exact c3doc_parse

/-- C3, witness at a concrete parse: the sentinel row of `c3doc` has
duration 3 and the `5-10s` row has duration `10 - 5`. -/
theorem C3_witness :
    scEnd.duration = 3 ∧
      sc510.duration = (digitsToNat "10".data : Int) - (digitsToNat "5".data : Int) :=
  ⟨(C3_parse_durations.1 c3doc c3script scEnd
      (by rw [c3doc_parse]; exact List.mem_cons_self _ _) (by simp [c3script])).1 (by decide),
   (C3_parse_durations.1 c3doc c3script sc510
      (by rw [c3doc_parse]; exact List.mem_cons_self _ _) (by simp [c3script])).2
     "5".data "10".data (by decide) (by decide) (by decide) (by decide) (by decide)⟩

/-! ## Claim C6 -/

/-- C6: every Script in the parser's output has a non-empty scene list, and
a section containing the title marker but no recognized table row (such as
`noRowsDoc`) contributes no Script. -/
theorem C6_nonempty_scenes :
    (∀ (content : String) (script : Script),
      script ∈ parse_script_md content → script.scenes ≠ []) ∧
    parse_script_md noRowsDoc = [] := by
  constructor
  · intro content script hs
    obtain ⟨sec, hsec⟩ := parse_mem hs
    exact (parseSection_fields hsec).2.2
  · decide

/-- C6, witness at a concrete parse. -/
theorem C6_witness : c3script.scenes ≠ [] :=
  C6_nonempty_scenes.1 c3doc c3script (by rw [c3doc_parse]; exact List.mem_cons_self _ _)

/-! ## Claim C7 -/

/-- C7: every key of a parsed script's character map is the stripped capture
of the two-role pattern, hence starts with `角色A` or `角色B`; character
bullets with any other role naming are absent, as the concrete document
with a `角色C` bullet shows (its map holds exactly the `角色A` entry with
its stripped description). -/
theorem C7_characters :
    (∀ (content : String) (script : Script) (kv : String × String),
      script ∈ parse_script_md content → kv ∈ script.characters →
        ∃ ab tail, (ab = 'A' ∨ ab = 'B') ∧
          kv.1 = String.mk ("角色".data ++ ab :: tail)) ∧
    (parse_script_md charDoc).map Script.characters = [[("角色A", "hero")]] :=
  ⟨fun _ _ _ hs hkv => parse_characters_shape hs hkv, by rw [charDoc_parse]; rfl⟩

/-- C7, witness at a concrete parse. -/
theorem C7_witness :
    ∃ ab tail, (ab = 'A' ∨ ab = 'B') ∧
      ("角色A", "hero").1 = String.mk ("角色".data ++ ab :: tail) :=
  C7_characters.1 charDoc charScript ("角色A", "hero")
    (by rw [charDoc_parse]; exact List.mem_cons_self _ _) (by simp [charScript])

/-! ## Claim C8 -/

/-- C8: the duration of a numeric `start-end` range is the exact integer
`end - start` with no lower-bound check; the reversed range `10-5s` parses
to a Scene with duration `-5`. -/
theorem C8_no_lower_bound :
    (∀ d1 d2, d1 ≠ [] → d2 ≠ [] → (∀ c ∈ d1, isDig c = true) →
      (∀ c ∈ d2, isDig c = true) →
      sceneDuration (d1 ++ '-' :: (d2 ++ ['s']))
        = (digitsToNat d2 : Int) - (digitsToNat d1 : Int)) ∧
    (parse_script_md negDoc).map (fun s => s.scenes.map Scene.duration) = [[-5]] :=
  ⟨fun _ _ h1 h2 h3 h4 => sceneDuration_range h1 h2 h3 h4, by decide⟩

/-- C8, witness: the reversed range `10-5s` evaluates to `5 - 10`. -/
theorem C8_witness :
    sceneDuration ("10".data ++ '-' :: ("5".data ++ ['s']))
      = (digitsToNat "5".data : Int) - (digitsToNat "10".data : Int) :=
  C8_no_lower_bound.1 "10".data "5".data (by decide) (by decide) (by decide) (by decide)

/-! ## Claim C4 -/

/-- Shared specification of the two seedance poll loops, parameterized over
the error-message prefix they differ in. -/
lemma poll_spec (failMsg : String) (resp : Nat → TaskResp) (fuel : Nat) :
    (∀ out, poll_loop failMsg resp fuel 0 = some out →
      ∃ n, n < fuel ∧ (∀ m, m < n → nonTerminal (resp m)) ∧
        (((resp n).status = "succeeded" ∧ out = Except.ok (resp n)) ∨
         ((resp n).status = "failed" ∧
           out = Except.error (failMsg ++ (resp n).error)))) ∧
    (∀ n, n < fuel → (∀ m, m < n → nonTerminal (resp m)) →
      ((resp n).status = "succeeded" →
        poll_loop failMsg resp fuel 0 = some (Except.ok (resp n))) ∧
      ((resp n).status = "failed" →
        poll_loop failMsg resp fuel 0 = some (Except.error (failMsg ++ (resp n).error)))) := by
  constructor
  · intro out h
    obtain ⟨n, _, hn2, hpre, hterm, hout⟩ := poll_loop_some_inv fuel 0 out h
    refine ⟨n, by omega, fun m hm => hpre m (by omega) hm, ?_⟩
    unfold nonTerminal at hterm
    push_neg at hterm
    by_cases hsucc : (resp n).status = "succeeded"
    · left
      refine ⟨hsucc, ?_⟩
      rw [hout]
      unfold pollOutcome
      rw [if_pos hsucc]
    · right
      refine ⟨hterm hsucc, ?_⟩
      rw [hout]
      unfold pollOutcome
      rw [if_neg hsucc]
  · intro n hn hpre
    constructor
    · intro hsucc
      have h : poll_loop failMsg resp fuel 0 = some (pollOutcome failMsg (resp n)) :=
        poll_loop_reach fuel 0 n (by omega) (by omega)
          (fun m _ hm => hpre m hm) (fun hnt => hnt.1 hsucc)
      rw [h]
      unfold pollOutcome
      rw [if_pos hsucc]
    · intro hfail
      have hsucc : (resp n).status ≠ "succeeded" := by
        intro he
        rw [he] at hfail
        exact absurd hfail (by decide)
      have h : poll_loop failMsg resp fuel 0 = some (pollOutcome failMsg (resp n)) :=
        poll_loop_reach fuel 0 n (by omega) (by omega)
          (fun m _ hm => hpre m hm) (fun hnt => hnt.2 hfail)
      rw [h]
      unfold pollOutcome
      rw [if_neg hsucc]

/-- C4: the poll loops of `generate_video` and `extend_video` return the
received result object exactly when the observed status is `"succeeded"`
and raise an error carrying the provider's error message exactly when it is
`"failed"`; they never return on any other status (they keep polling), and
a single invocation cannot both return and raise (the loop's value is one
`Except`). -/
theorem C4_poll_terminal :
    ∀ (resp : Nat → TaskResp) (fuel : Nat),
      (∀ out, generate_video_poll resp fuel = some out →
        ∃ n, n < fuel ∧ (∀ m, m < n → nonTerminal (resp m)) ∧
          (((resp n).status = "succeeded" ∧ out = Except.ok (resp n)) ∨
           ((resp n).status = "failed" ∧
             out = Except.error ("Video generation failed: " ++ (resp n).error)))) ∧
      (∀ n, n < fuel → (∀ m, m < n → nonTerminal (resp m)) →
        ((resp n).status = "succeeded" →
          generate_video_poll resp fuel = some (Except.ok (resp n))) ∧
        ((resp n).status = "failed" →
          generate_video_poll resp fuel =
            some (Except.error ("Video generation failed: " ++ (resp n).error)))) ∧
      (∀ out, extend_video_poll resp fuel = some out →
        ∃ n, n < fuel ∧ (∀ m, m < n → nonTerminal (resp m)) ∧
          (((resp n).status = "succeeded" ∧ out = Except.ok (resp n)) ∨
           ((resp n).status = "failed" ∧
             out = Except.error ("Video extension failed: " ++ (resp n).error)))) ∧
      (∀ n, n < fuel → (∀ m, m < n → nonTerminal (resp m)) →
        ((resp n).status = "succeeded" →
          extend_video_poll resp fuel = some (Except.ok (resp n))) ∧
        ((resp n).status = "failed" →
          extend_video_poll resp fuel =
            some (Except.error ("Video extension failed: " ++ (resp n).error)))) := by
  intro resp fuel
  exact ⟨(poll_spec "Video generation failed: " resp fuel).1,
    (poll_spec "Video generation failed: " resp fuel).2,
    (poll_spec "Video extension failed: " resp fuel).1,
    (poll_spec "Video extension failed: " resp fuel).2⟩

/-- A concrete status oracle: `running` on the first poll, `succeeded` on
every later poll. -/
def cResp : Nat → TaskResp :=
  fun n => if n = 0 then { status := "running", error := "", payload := "" }
    else { status := "succeeded", error := "", payload := "ok" }

/-- C4, witness: with `cResp`, polling with fuel 2 returns the second
response verbatim. -/
theorem C4_witness :
    generate_video_poll cResp 2 =
      some (Except.ok { status := "succeeded", error := "", payload := "ok" }) :=
  ((C4_poll_terminal cResp 2).2.1 1 (by omega) (by decide)).1 (by decide)

/-! ## Claim C5 -/

/-- C5: the source poll loop is an unbounded retry: if no poll ever returns
a terminal status the loop never returns (for every fuel bound the unfolded
loop has not terminated); if the first terminal status appears at poll
index `n` (the `(n+1)`-st poll), the loop returns exactly after that poll —
with at most `n` polls unfolded it has not returned, with any budget beyond
`n` it returns the outcome of poll `n`, and its behaviour depends only on
the first `n+1` responses. -/
theorem C5_unbounded_poll :
    ∀ (resp : Nat → TaskResp),
      ((∀ m, nonTerminal (resp m)) → ∀ fuel, generate_video_poll resp fuel = none) ∧
      (∀ n, (∀ m, m < n → nonTerminal (resp m)) → ¬ nonTerminal (resp n) →
        (∀ fuel, fuel ≤ n → generate_video_poll resp fuel = none) ∧
        (∀ fuel, n < fuel → generate_video_poll resp fuel =
          some (pollOutcome "Video generation failed: " (resp n))) ∧
        (∀ (resp2 : Nat → TaskResp), (∀ m, m ≤ n → resp2 m = resp m) →
          ∀ fuel, generate_video_poll resp2 fuel = generate_video_poll resp fuel)) := by
  intro resp
  constructor
  · intro hall fuel
    exact poll_loop_none fuel 0 (fun m _ _ => hall m)
  · intro n hpre hterm
    refine ⟨?_, ?_, ?_⟩
    · intro fuel hfuel
      exact poll_loop_none fuel 0 (fun m _ hm => hpre m (by omega))
    · intro fuel hfuel
      exact poll_loop_reach fuel 0 n (by omega) (by omega) (fun m _ hm => hpre m hm) hterm
    · intro resp2 hagree fuel
      unfold generate_video_poll
      by_cases hf : fuel ≤ n
      · rw [poll_loop_none fuel 0 (fun m _ hm => by
            rw [hagree m (by omega)]; exact hpre m (by omega)),
          poll_loop_none fuel 0 (fun m _ hm => hpre m (by omega))]
      · have hlt : n < fuel := by omega
        rw [poll_loop_reach fuel 0 n (by omega) (by omega)
            (fun m _ hm => by rw [hagree m (by omega)]; exact hpre m hm)
            (by rw [hagree n (Nat.le_refl n)]; exact hterm),
          poll_loop_reach fuel 0 n (by omega) (by omega) (fun m _ hm => hpre m hm) hterm]
        rw [hagree n (Nat.le_refl n)]

/-- C5, witness: with `cResp` the first terminal status appears at poll
index 1, so one poll is not enough and two polls return the outcome of the
second response. -/
theorem C5_witness :
    generate_video_poll cResp 1 = none ∧
      generate_video_poll cResp 2 =
        some (pollOutcome "Video generation failed: " (cResp 1)) := by
  have h := (C5_unbounded_poll cResp).2 1 (by decide) (by decide)
  exact ⟨h.1 1 (by omega), h.2.1 2 (by omega)⟩

deriving instance DecidableEq for Except

/-! ## Claim C1 -/

/-- C1, counterexample: `batch_generate` (story_gen.py) violates the
claimed batch shape.  With one topic whose processing raises an error, the
returned list has 0 entries instead of the claimed 1, and carries no error
record — the loop prints the error and records nothing. -/
theorem C1_counterexample :
    (batch_generate (fun _ _ => (Except.error "boom" : Except String String))
      ["面试"]).length ≠ 1 := by decide

/-- C1 (amended): the scene loop of `generate_videos_from_script` has the
claimed partial-failure shape — with item `k` failing, the result has one
entry per scene in order, entry `k` is the error record carrying the
message, and every other entry is the unaffected success record.
`batch_generate`, however, only continues past a failure: it records
nothing for the failed item, so its result is the list of the successful
items' paths in input order (one fewer entry than the input). -/
theorem C1_partial_failure :
    (∀ (act : Nat → String → Except String TaskResp) (script : Script)
        (k : Nat) (e : String) (rs : Nat → TaskResp) (hk : k < script.scenes.length),
      act k (build_video_prompt (script.scenes.get ⟨k, hk⟩) script "cinematic") =
        Except.error e →
      (∀ j (hj : j < script.scenes.length), j ≠ k →
        act j (build_video_prompt (script.scenes.get ⟨j, hj⟩) script "cinematic") =
          Except.ok (rs j)) →
      (processScenes act script false).length = script.scenes.length ∧
      (processScenes act script false)[k]? = some (VidResult.failure script.title k e) ∧
      (∀ j (hj : j < script.scenes.length), j ≠ k →
        (processScenes act script false)[j]? = some (VidResult.success script.title j
          (script.scenes.get ⟨j, hj⟩).time_range
          (build_video_prompt (script.scenes.get ⟨j, hj⟩) script "cinematic") (rs j)))) ∧
    (∀ {α : Type} (act : Nat → String → Except String α) (pre post : List String)
        (tfail e : String) (rs : Nat → α),
      act (pre.length + 1) tfail = Except.error e →
      (∀ j (hj : j < pre.length), act (j + 1) (pre.get ⟨j, hj⟩) = Except.ok (rs (j + 1))) →
      (∀ j (hj : j < post.length),
        act (pre.length + 2 + j) (post.get ⟨j, hj⟩) = Except.ok (rs (pre.length + 2 + j))) →
      batch_generate act (pre ++ tfail :: post) =
        (List.range pre.length).map (fun j => rs (j + 1)) ++
          (List.range post.length).map (fun j => rs (pre.length + 2 + j))) := by
  constructor
  · intro act script k e rs hk hfail hok
    obtain ⟨hlen, hget⟩ := @processScenesAux_char act script script.scenes 0
    refine ⟨hlen, ?_, ?_⟩
    · have hsk : script.scenes[k]? = some (script.scenes.get ⟨k, hk⟩) := by
        rw [List.get_eq_getElem]
        exact List.getElem?_eq_getElem hk
      have hres := hget k (script.scenes.get ⟨k, hk⟩) hsk
      simp only [Nat.zero_add] at hres
      rw [hfail] at hres
      simpa [processScenes] using hres
    · intro j hj hne
      have hsj : script.scenes[j]? = some (script.scenes.get ⟨j, hj⟩) := by
        rw [List.get_eq_getElem]
        exact List.getElem?_eq_getElem hj
      have hres := hget j (script.scenes.get ⟨j, hj⟩) hsj
      simp only [Nat.zero_add] at hres
      rw [hok j hj hne] at hres
      simpa [processScenes] using hres
  · intro α act pre post tfail e rs hfail hpre hpost
    unfold batch_generate
    rw [batch_generateAux_append act pre (tfail :: post) 1]
    have h1 : batch_generateAux act 1 pre =
        (List.range pre.length).map (fun j => rs (j + 1)) := by
      rw [batch_generateAux_all_ok pre 1 (fun j hj => by
        have h := hpre j hj
        rw [show j + 1 = 1 + j by omega] at h
        exact h)]
      apply List.map_congr_left
      intro a _
      congr 1
      omega
    have h2 : batch_generateAux act (1 + pre.length) (tfail :: post) =
        (List.range post.length).map (fun j => rs (pre.length + 2 + j)) := by
      simp only [batch_generateAux]
      rw [show 1 + pre.length = pre.length + 1 by omega, hfail]
      show batch_generateAux act (pre.length + 1 + 1) post = _
      rw [show pre.length + 1 + 1 = pre.length + 2 by omega]
      exact batch_generateAux_all_ok post (pre.length + 2) (fun j hj => hpost j hj)
    rw [h1, h2]

/-- A constant successful poll result used by the concrete oracles. -/
def r0 : TaskResp := { status := "succeeded", error := "", payload := "url" }

/-- A scene oracle that fails on the first scene and succeeds elsewhere. -/
def cAct : Nat → String → Except String TaskResp :=
  fun j _ => if j = 0 then Except.error "boom" else Except.ok r0

/-- A topic oracle that fails on the first topic (1-based index 1). -/
def cBAct : Nat → String → Except String String :=
  fun i _ => if i = 1 then Except.error "boom"
    else Except.ok (String.mk ('p' :: (toString i).data))

/-- C1, witness at concrete inputs. -/
theorem C1_witness :
    (processScenes cAct c3script false).length = 3 ∧
    (processScenes cAct c3script false)[0]? = some (VidResult.failure "T" 0 "boom") ∧
    (processScenes cAct c3script false)[1]? = some (VidResult.success "T" 1 "5-10s"
      (build_video_prompt sc510 c3script "cinematic") r0) ∧
    batch_generate cBAct ["t1", "t2"] = [String.mk ('p' :: (toString 2).data)] := by
  obtain ⟨hlen, hk, hj⟩ := C1_partial_failure.1 cAct c3script 0 "boom" (fun _ => r0)
    (by decide) (by decide) (by decide)
  refine ⟨hlen, hk, hj 1 (by decide) (by decide), ?_⟩
  have h2 := C1_partial_failure.2 cBAct [] ["t2"] "t1" "boom"
    (fun i => String.mk ('p' :: (toString i).data)) (by decide) (by decide) (by decide)
  simpa using h2

/-! ## Claim C9 -/

/-- C9: the filename built by `save_story` is
`story_<safe>_<timestamp>_<index>.md` (or `story_<safe>_<timestamp>.md`
without an index) where `<safe>` replaces every character that is neither
alphanumeric nor one of `.`, `_`, `-` by `_` and is truncated to at most 30
characters. -/
theorem C9_filename_form :
    ∀ (topic timestamp : String) (i : Int),
      save_story_filename topic timestamp (some i) =
        String.mk ("story_".data ++
          ((topic.data.map fun c =>
            if ¬ pyIsAlnum c = true ∧ c ∉ ['.', '_', '-'] then '_' else c).take 30) ++
          "_".data ++ timestamp.data ++ "_".data ++ (toString i).data ++ ".md".data) ∧
      save_story_filename topic timestamp none =
        String.mk ("story_".data ++
          ((topic.data.map fun c =>
            if ¬ pyIsAlnum c = true ∧ c ∉ ['.', '_', '-'] then '_' else c).take 30) ++
          "_".data ++ timestamp.data ++ ".md".data) ∧
      (safe_topic topic).length ≤ 30 := by
  intro topic timestamp i
  have hmap : (topic.data.map fun c =>
      if ¬ pyIsAlnum c = true ∧ c ∉ ['.', '_', '-'] then '_' else c) =
      topic.data.map fun c =>
        if pyIsAlnum c || c = '.' || c = '_' || c = '-' then c else '_' := by
    apply List.map_congr_left
    intro c _
    by_cases hA : (pyIsAlnum c || c = '.' || c = '_' || c = '-') = true
    · rw [if_pos hA, if_neg]
      intro hcon
      obtain ⟨hna, hnm⟩ := hcon
      simp only [Bool.or_eq_true, decide_eq_true_eq] at hA
      rcases hA with ((ha | h1) | h2) | h3
      · exact hna ha
      · exact hnm (by simp [h1])
      · exact hnm (by simp [h2])
      · exact hnm (by simp [h3])
    · rw [if_neg hA, if_pos]
      constructor
      · intro ha
        exact hA (by simp [ha])
      · intro hm
        simp only [List.mem_cons, List.mem_singleton, List.not_mem_nil, or_false] at hm
        rcases hm with h1 | h1 | h1 <;> exact hA (by simp [h1])
  refine ⟨?_, ?_, ?_⟩
  · unfold save_story_filename safe_topic
    rw [hmap]
  · unfold save_story_filename safe_topic
    rw [hmap]
  · unfold safe_topic
    simp

/-! ## Claim C10 -/

/-- C10: with a non-`None` `script_index`, `generate_videos_from_script`
raises `ValueError` exactly when the index is at least the number of parsed
scripts; a negative index passes that check and selects from the end of the
list (Python indexing), so index `-1` processes the last script. -/
theorem C10_script_index :
    ∀ (act : Nat → Nat → String → Except String TaskResp) (content : String)
        (i : Int) (dryRun : Bool),
      ((∃ msg, generate_videos_from_script act content (some i) dryRun =
          Except.error (PyErr.valueError msg)) ↔
        ((parse_script_md content).length : Int) ≤ i) ∧
      (∀ h : parse_script_md content ≠ [],
        generate_videos_from_script act content (some (-1)) dryRun =
          Except.ok (processScriptsAux act dryRun 0 [(parse_script_md content).getLast h])) := by
  intro act content i dryRun
  constructor
  · constructor
    · rintro ⟨msg, hmsg⟩
      by_contra hlt
      push_neg at hlt
      simp only [generate_videos_from_script, selectScripts] at hmsg
      rw [if_neg (not_le.2 hlt)] at hmsg
      cases hg : pyListGet (parse_script_md content) i with
      | some s => rw [hg] at hmsg; exact absurd hmsg (by simp)
      | none => rw [hg] at hmsg; simp at hmsg
    · intro hge
      refine ⟨"Script index " ++ toString i ++ " out of range (0-" ++
          toString (((parse_script_md content).length : Int) - 1) ++ ")", ?_⟩
      simp only [generate_videos_from_script, selectScripts]
      rw [if_pos hge]
  · intro h
    have hlen : 0 < (parse_script_md content).length := List.length_pos.2 h
    simp only [generate_videos_from_script, selectScripts]
    rw [if_neg (by omega)]
    have hplg : pyListGet (parse_script_md content) (-1)
        = some ((parse_script_md content).getLast h) := by
      unfold pyListGet
      rw [if_neg (by omega), if_pos (by omega)]
      have htn : ((-1 : Int) + ((parse_script_md content).length : Int)).toNat
          = (parse_script_md content).length - 1 := by omega
      rw [htn, ← List.getLast?_eq_getElem?, List.getLast?_eq_getLast _ h]
    rw [hplg]

/-- A scene oracle that always succeeds, for the C10 witness. -/
def cVAct : Nat → Nat → String → Except String TaskResp := fun _ _ _ => Except.ok r0

/-- C10, witness: index `-1` on a one-script document selects that (last)
script and the run succeeds (no `ValueError`). -/
theorem C10_witness :
    generate_videos_from_script cVAct c3doc (some (-1)) true =
      Except.ok (processScriptsAux cVAct true 0 [c3script]) := by
  have h := (C10_script_index cVAct c3doc (-1) true).2 (by decide)
  rw [h]
  rw [show (parse_script_md c3doc).getLast (by decide) = c3script from by
    have h2 := c3doc_parse
    simp [h2]]
